import Mathlib

/-!
Verification of the block-assembly and mining program (`main.py`).

The Python source is shallowly embedded below: pure helper functions become
Lean functions on `Nat`/`Int`/`String`, the transaction dictionaries become a
`Transaction` structure, the `while True` mining loop becomes a fuel-indexed
loop, and Python's `None`/`False` return values of the validator become
`Option Bool` (`none` models the missing positive-path return, `some false`
models an explicit rejection).
-/

/-! ## Hexadecimal primitives -/

/-- Lowercase hex digit for a value below 16, mirroring Python's `%x` digits. -/
def hexDigitChar : Nat → Char
  | 0 => '0' | 1 => '1' | 2 => '2' | 3 => '3'
  | 4 => '4' | 5 => '5' | 6 => '6' | 7 => '7'
  | 8 => '8' | 9 => '9' | 10 => 'a' | 11 => 'b'
  | 12 => 'c' | 13 => 'd' | 14 => 'e' | _ => 'f'

/-- Value of a hex digit, as accepted by Python's `int(_, 16)`. -/
def hexDigitVal : Char → Nat
  | '0' => 0 | '1' => 1 | '2' => 2 | '3' => 3
  | '4' => 4 | '5' => 5 | '6' => 6 | '7' => 7
  | '8' => 8 | '9' => 9
  | 'a' => 10 | 'b' => 11 | 'c' => 12 | 'd' => 13 | 'e' => 14 | 'f' => 15
  | 'A' => 10 | 'B' => 11 | 'C' => 12 | 'D' => 13 | 'E' => 14 | 'F' => 15
  | _ => 0

/-- Most-significant-first hex digits of `v` (empty for `v = 0`); the fuel
argument only bounds the recursion and is immaterial once it is at least `v`. -/
def toHexAux : Nat → Nat → List Char
  | 0, _ => []
  | fuel + 1, v => if v = 0 then [] else toHexAux fuel (v / 16) ++ [hexDigitChar (v % 16)]

/-- Hex digits of `v` as Python's `format(v, "x")` renders them (`"0"` for 0). -/
def natToHexChars (v : Nat) : List Char :=
  if v = 0 then ['0'] else toHexAux v v

/-- Embedding of `field(data, size)` from `main.py`:
`format(data, "0{}x".format(size * 2))`, i.e. lowercase hex zero-padded to a
minimum width of `2*size` characters, never truncated. -/
def field (data size : Nat) : String :=
  let digits := natToHexChars data
  ⟨List.replicate (2 * size - digits.length) '0' ++ digits⟩

/-- Embedding of Python's `int(s, 16)` on valid hex input: big-endian fold. -/
def hexToNat (s : String) : Nat :=
  s.data.foldl (fun acc c => 16 * acc + hexDigitVal c) 0

/-- Split a character list into consecutive two-character chunks; a trailing
lone character becomes a one-element chunk, exactly like the Python slices
`data[i : i + 2] for i in range(0, len(data), 2)`. -/
def chunkPairs : List Char → List (List Char)
  | [] => []
  | [c] => [[c]]
  | a :: b :: rest => [a, b] :: chunkPairs rest

/-- Embedding of `reversebytes(data)` from `main.py`:
`"".join(reversed([data[i : i + 2] for i in range(0, len(data), 2)]))`. -/
def reversebytes (data : String) : String :=
  ⟨((chunkPairs data.data).reverse).flatten⟩

/-- Embedding of Python's `bytes.fromhex` on valid even-length hex input. -/
def hexToBytes : List Char → List Nat
  | a :: b :: rest => (16 * hexDigitVal a + hexDigitVal b) :: hexToBytes rest
  | _ => []

/-! ## SHA-256 (model of Python's `hashlib.sha256`)

A byte is a `Nat` below 256, a word a `Nat` below `2^32`; all word arithmetic
is reduced modulo `4294967296`. -/

/-- Group bytes into big-endian 32-bit words. -/
def bytesToWords : List Nat → List Nat
  | b0 :: b1 :: b2 :: b3 :: rest =>
      (((b0 * 256 + b1) * 256 + b2) * 256 + b3) :: bytesToWords rest
  | _ => []

/-- The 64 SHA-256 round constants, packed as one big-endian hex string. -/
def K64 : List Nat :=
  bytesToWords (hexToBytes (String.data (
    "428a2f9871374491b5c0fbcfe9b5dba53956c25b59f111f1923f82a4ab1c5ed5d807aa9812835b01243185be550c7dc372be5d7480deb1fe9bdc06a7c19bf174"
      ++ "e49b69c1efbe47860fc19dc6240ca1cc2de92c6f4a7484aa5cb0a9dc76f988da983e5152a831c66db00327c8bf597fc7c6e00bf3d5a7914706ca635114292967"
      ++ "27b70a852e1b21384d2c6dfc53380d13650a7354766a0abb81c2c92e92722c85a2bfe8a1a81a664bc24b8b70c76c51a3d192e819d6990624f40e3585106aa070"
      ++ "19a4c1161e376c082748774c34b0bcb5391c0cb34ed8aa4a5b9cca4f682e6ff3748f82ee78a5636f84c878148cc7020890befffaa4506cebbef9a3f7c67178f2")))

/-- The SHA-256 initial hash state, packed as one big-endian hex string. -/
def sha256Init : List Nat :=
  bytesToWords (hexToBytes (String.data
    "6a09e667bb67ae853c6ef372a54ff53a510e527f9b05688c1f83d9ab5be0cd19"))

/-- Right rotation of a 32-bit word. -/
def rotr32 (n x : Nat) : Nat :=
  ((x >>> n) ||| (x <<< (32 - n))) % 4294967296

def bigSig0 (x : Nat) : Nat := rotr32 2 x ^^^ rotr32 13 x ^^^ rotr32 22 x
def bigSig1 (x : Nat) : Nat := rotr32 6 x ^^^ rotr32 11 x ^^^ rotr32 25 x
def smallSig0 (x : Nat) : Nat := rotr32 7 x ^^^ rotr32 18 x ^^^ (x >>> 3)
def smallSig1 (x : Nat) : Nat := rotr32 17 x ^^^ rotr32 19 x ^^^ (x >>> 10)
def chWord (x y z : Nat) : Nat := (x &&& y) ^^^ ((x ^^^ 0xffffffff) &&& z)
def majWord (x y z : Nat) : Nat := (x &&& y) ^^^ (x &&& z) ^^^ (y &&& z)

/-- Big-endian byte rendering of `n` into exactly `k` bytes. -/
def bytesBE : Nat → Nat → List Nat
  | 0, _ => []
  | k + 1, n => bytesBE k (n / 256) ++ [n % 256]

/-- SHA-256 padding: append `0x80`, zeros, and the 8-byte big-endian bit
length, reaching a multiple of 64 bytes. -/
def padMessage (msg : List Nat) : List Nat :=
  msg ++ [0x80] ++ List.replicate ((120 - ((msg.length + 1) % 64)) % 64) 0
      ++ bytesBE 8 (msg.length * 8)

/-- One message-schedule extension step; `rws` holds the schedule so far,
most recent word first. -/
def scheduleStep (rws : List Nat) : Nat :=
  (smallSig1 (rws.getD 1 0) + rws.getD 6 0 + smallSig0 (rws.getD 14 0) + rws.getD 15 0)
    % 4294967296

/-- Extend the reversed schedule by `n` words and return it in order. -/
def buildSchedule : Nat → List Nat → List Nat
  | 0, rws => rws.reverse
  | n + 1, rws => buildSchedule n (scheduleStep rws :: rws)

/-- One SHA-256 compression round on the eight-word working state. -/
def compressStep (st : List Nat) (kw : Nat × Nat) : List Nat :=
  match st with
  | [a, b, c, d, e, f, g, h] =>
      let t1 := (h + bigSig1 e + chWord e f g + kw.1 + kw.2) % 4294967296
      let t2 := (bigSig0 a + majWord a b c) % 4294967296
      [(t1 + t2) % 4294967296, a, b, c, (d + t1) % 4294967296, e, f, g]
  | other => other

/-- Compress one 64-byte block into the running hash state. -/
def sha256Compress (H : List Nat) (block : List Nat) : List Nat :=
  let w := buildSchedule 48 (bytesToWords block).reverse
  let st := (K64.zip w).foldl compressStep H
  List.zipWith (fun x y => (x + y) % 4294967296) H st

/-- Split a padded message into 64-byte blocks (fuel-indexed, structural). -/
def chunks64Aux : Nat → List Nat → List (List Nat)
  | 0, _ => []
  | _, [] => []
  | f + 1, l => l.take 64 :: chunks64Aux f (l.drop 64)

def chunks64 (l : List Nat) : List (List Nat) := chunks64Aux l.length l

/-- SHA-256 of a byte sequence, as a 32-byte digest. -/
def sha256Bytes (msg : List Nat) : List Nat :=
  (((chunks64 (padMessage msg)).foldl sha256Compress sha256Init).map
    (bytesBE 4)).flatten

/-- Lowercase hex rendering of a byte sequence (`hexdigest`). -/
def bytesToHex (bs : List Nat) : String :=
  ⟨bs.foldr (fun b acc => hexDigitChar (b / 16) :: hexDigitChar (b % 16) :: acc) []⟩

/-- UTF-8 bytes of an ASCII string (`str.encode()`); every string the program
hashes is ASCII. -/
def strToBytes (s : String) : List Nat := s.data.map Char.toNat

/-- `hashlib.sha256(text.encode()).hexdigest()`. -/
def sha256Hex (s : String) : String := bytesToHex (sha256Bytes (strToBytes s))

/-- Embedding of `hash256(data)` from `main.py`: decode the hex string to raw
bytes, apply SHA-256 twice, render the second digest as hex. -/
def hash256 (data : String) : String :=
  bytesToHex (sha256Bytes (sha256Bytes (hexToBytes data.data)))

/-! ## Transaction data model

Shallow embedding of the JSON transaction dictionaries of `main.py`: the
fields the program reads, in the record shape of the mempool files plus the
`txid` the reader assigns. A `vin` entry's `txid` is heterogeneous in the
source (mempool entries hold a string, the coinbase holds the integer `0`),
so it is embedded as a small sum. -/

/-- A JSON `txid` value inside an input: a string or an integer. -/
inductive TxidV where
  | str : String → TxidV
  | num : Int → TxidV
deriving DecidableEq, Repr

/-- The `prevout` descriptor of an input. -/
structure Prevout where
  scriptpubkey : String
  value : Int
deriving DecidableEq, Repr

/-- One entry of `vin`. -/
structure TxIn where
  txid : TxidV
  vout : Int
  prevout : Prevout
deriving DecidableEq, Repr

/-- One entry of `vout`. -/
structure TxOut where
  scriptpubkey : String
  value : Int
deriving DecidableEq, Repr

/-- A transaction record. -/
structure Transaction where
  version : Int
  locktime : Int
  vin : List TxIn
  vout : List TxOut
  txid : String
deriving DecidableEq, Repr

def MIN_OUTPUT_VALUE : Int := 0
def MAX_OUTPUT_VALUE : Int := 21000000
def MAX_VOUT : Int := 2 ^ 32 - 1

/-- Python's `sys.maxsize` on a 64-bit platform. -/
def sysMaxsize : Int := 9223372036854775807

/-- JSON rendering of a `vin` txid (strings quoted, integers bare). -/
def txidVJson : TxidV → String
  | TxidV.str s => "\"" ++ s ++ "\""
  | TxidV.num n => toString n

/-- JSON rendering of one input, with Python `json.dumps` default separators. -/
def txInJson (i : TxIn) : String :=
  "\x7b\"txid\": " ++ txidVJson i.txid ++ ", \"vout\": " ++ toString i.vout
    ++ ", \"prevout\": \x7b\"scriptpubkey\": \"" ++ i.prevout.scriptpubkey
    ++ "\", \"value\": " ++ toString i.prevout.value ++ "\x7d\x7d"

/-- JSON rendering of one output. -/
def txOutJson (o : TxOut) : String :=
  "\x7b\"scriptpubkey\": \"" ++ o.scriptpubkey ++ "\", \"value\": "
    ++ toString o.value ++ "\x7d"

/-- Model of `json.dumps(transaction)` for a mempool record: insertion order
is the file's field order with the reader-assigned `txid` appended last. -/
def txJson (t : Transaction) : String :=
  "\x7b\"version\": " ++ toString t.version
    ++ ", \"locktime\": " ++ toString t.locktime
    ++ ", \"vin\": [" ++ String.intercalate ", " (t.vin.map txInJson)
    ++ "], \"vout\": [" ++ String.intercalate ", " (t.vout.map txOutJson)
    ++ "], \"txid\": \"" ++ t.txid ++ "\"\x7d"

/-! ## Transaction validation -/

/-- The output-scanning loop of `validate_transaction`: walk `vout` keeping a
running total, failing as soon as one value leaves
`[MIN_OUTPUT_VALUE, MAX_OUTPUT_VALUE]`. -/
def checkVoutLoop : List TxOut → Int → Option Int
  | [], total => some total
  | o :: rest, total =>
      if o.value < MIN_OUTPUT_VALUE ∨ o.value > MAX_OUTPUT_VALUE then none
      else checkVoutLoop rest (total + o.value)

/-- The coinbase-sentinel scan over `vin`:
`input["txid"] == "0" and input["vout"] == -1`. -/
def hasCoinbaseInput (vin : List TxIn) : Bool :=
  vin.any fun i => decide (i.txid = TxidV.str "0" ∧ i.vout = -1)

/-- Embedding of `validate_transaction` from `main.py`. The Python function
returns `False` on each rejection and falls off the end otherwise, returning
`None`; the embedding returns `some false` respectively `none`. -/
def validate_transaction (t : Transaction) : Option Bool :=
  if t.vin = [] ∨ t.vout = [] then some false
  else
    match checkVoutLoop t.vout 0 with
    | none => some false
    | some total =>
        if total > MAX_OUTPUT_VALUE ∨ total < MIN_OUTPUT_VALUE then some false
        else if hasCoinbaseInput t.vin then some false
        else if t.locktime > sysMaxsize ∨ t.locktime < 0 then some false
        else if (txJson t).length < 100 then some false
        else none

/-- Python truthiness of the validator's result: `None` and `False` are both
falsy, so a transaction passes the `main` filter only on a truthy return. -/
def truthy : Option Bool → Bool
  | none => false
  | some b => b

/-- Sum of the output values of a list of outputs. -/
def outputSum (outs : List TxOut) : Int := (outs.map TxOut.value).sum

/-! ## Block assembly -/

/-- Embedding of `create_coinbase_transaction` from `main.py`. -/
def create_coinbase_transaction : Transaction :=
  { version := 2
    locktime := 0
    txid := "coinbase_txid_placeholder"
    vin := [{ txid := TxidV.num 0
              vout := MAX_VOUT
              prevout := { scriptpubkey := "coinbase_scriptpubkey", value := 50 } }]
    vout := [{ scriptpubkey := "coinbase_scriptpubkey", value := 50 }] }

/-- `main`'s filter: `[tx for tx in transactions if validate_transaction(tx)]`. -/
def valid_transactions (pool : List Transaction) : List Transaction :=
  pool.filter fun tx => truthy (validate_transaction tx)

/-- `main`'s block list: `[coinbase_tx] + valid_transactions`. -/
def transactions_for_block (pool : List Transaction) : List Transaction :=
  create_coinbase_transaction :: valid_transactions pool

/-- The identifier lines `main` writes to `output.txt` after the coinbase
serialization: one `txid` per transaction that survived the filter. -/
def artifact_txids (pool : List Transaction) : List String :=
  (valid_transactions pool).map Transaction.txid

/-! ## Mining -/

/-- The concatenated-identifier preimage `"".join(txids)` the program hashes
into its (simplified) Merkle root. -/
def rootInput (txids : List String) : String := String.join txids

/-- The simplified Merkle root of `main.py`:
`hashlib.sha256("".join(txids).encode()).hexdigest()`. -/
def computeRoot (txids : List String) : String := sha256Hex (rootInput txids)

/-- The hard-coded previous-block hash of `mining`. -/
def prevblock : String :=
  "000000000002d01c1fccc21636b607dfd930d31d01c3a62104612a1719011250"

/-- The serialized header built by `mining` before the search loop; the
timestamp `int(time.time())` is an external input and enters as a parameter. -/
def miningHeader (timeStamp : Nat) (txids : List String) : String :=
  reversebytes (field 2 4) ++ reversebytes prevblock
    ++ reversebytes (computeRoot txids) ++ reversebytes (field timeStamp 4)

/-- One candidate header: the fixed header with the byte-order-reversed
4-byte nonce appended. -/
def miningAttempt (header : String) (nonce : Nat) : String :=
  header ++ reversebytes (field nonce 4)

/-- The `while True` search loop of `mining`, made total by a fuel bound:
`none` means the loop is still running after `fuel` iterations. The Python
loop has no other exit and no nonce bound. -/
def miningLoop (header target : String) : Nat → Nat → Option (String × String)
  | 0, _ => none
  | fuel + 1, nonce =>
      let result := reversebytes (hash256 (miningAttempt header nonce))
      if hexToNat result < hexToNat target then some (header, result)
      else miningLoop header target fuel (nonce + 1)

/-- Embedding of `mining(target, transactions)` from `main.py`, fuel-bounded. -/
def mining (target : String) (transactions : List Transaction)
    (timeStamp fuel : Nat) : Option (String × String) :=
  miningLoop (miningHeader timeStamp (transactions.map Transaction.txid))
    target fuel 0

/-- The all-zero 256-bit target, as a 64-digit hex string. -/
def zeroTarget : String := ⟨List.replicate 64 '0'⟩

/-- The all-ones 256-bit target, as a 64-digit hex string. -/
def maxTarget : String := ⟨List.replicate 64 'f'⟩

/-! ## Concrete example transactions

A pool of three transactions: `exTx1` and `exTx2` satisfy every validation
rule; `exTx3` has outputs that are each within range but whose sum exceeds
`MAX_OUTPUT_VALUE`, so it violates exactly the output-sum bound. -/

def exTx1 : Transaction :=
  { version := 2
    locktime := 0
    vin := [{ txid := TxidV.str
                "3b7dc9a8f1e2d4c5b6a7988172635445362718099a8b7c6d5e4f3a2b1c0d9e8f"
              vout := 0
              prevout := { scriptpubkey := "76a914536f6d65506b48617368313e4f88ac"
                           value := 150000 } }]
    vout := [{ scriptpubkey := "76a914526563697069656e74486173682188ac"
               value := 140000 }]
    txid := "11aa22bb33cc44dd55ee66ff7788990011aa22bb33cc44dd55ee66ff77889900" }

def exTx2 : Transaction :=
  { version := 1
    locktime := 500000
    vin := [{ txid := TxidV.str
                "c0ffee00c0ffee00c0ffee00c0ffee00c0ffee00c0ffee00c0ffee00c0ffee00"
              vout := 1
              prevout := { scriptpubkey := "0014aabbccddeeff00112233445566778899aabbccdd"
                           value := 2500000 } }]
    vout := [{ scriptpubkey := "0014ffeeddccbbaa99887766554433221100ffeedd"
               value := 1000000 },
             { scriptpubkey := "6a0b68656c6c6f20776f726c64"
               value := 0 }]
    txid := "99ff88ee77dd66cc55bb44aa3399228811ff00ee99ff88ee77dd66cc55bb44aa" }

def exTx3 : Transaction :=
  { version := 2
    locktime := 0
    vin := [{ txid := TxidV.str
                "deadbeefdeadbeefdeadbeefdeadbeefdeadbeefdeadbeefdeadbeefdeadbeef"
              vout := 2
              prevout := { scriptpubkey := "76a9140000111122223333444455556666777788889999aa88ac"
                           value := 22000000 } }]
    vout := [{ scriptpubkey := "76a914aaaabbbbccccddddeeeeffff0000111122223333ab88ac"
               value := 11000000 },
             { scriptpubkey := "76a9144444555566667777888899990000aaaabbbbcccc88ac"
               value := 11000000 }]
    txid := "fedcba9876543210fedcba9876543210fedcba9876543210fedcba9876543210" }

/-- The three-transaction pool of the end-to-end scenario. -/
def examplePool : List Transaction := [exTx1, exTx2, exTx3]

/-! ## Byte-order reversal: lemmas -/

lemma chunkPairs_flatten (l : List Char) : (chunkPairs l).flatten = l := by
  induction l using chunkPairs.induct with
  | case1 => rfl
  | case2 c => rfl
  | case3 a b rest ih => simp [chunkPairs, ih]

lemma length_of_mem_chunkPairs {l : List Char} (hl : l.length % 2 = 0)
    {c : List Char} (hc : c ∈ chunkPairs l) : c.length = 2 := by
  induction l using chunkPairs.induct with
  | case1 => simp [chunkPairs] at hc
  | case2 d => simp at hl
  | case3 a b rest ih =>
      simp only [chunkPairs, List.mem_cons] at hc
      rcases hc with h | h
      · simp [h]
      · exact ih (by simp only [List.length_cons] at hl; omega) h

lemma chunkPairs_flatten_of_pairs (L : List (List Char))
    (h : ∀ c ∈ L, c.length = 2) : chunkPairs L.flatten = L := by
  induction L with
  | nil => rfl
  | cons c L ih =>
      have hc : c.length = 2 := h c (List.mem_cons_self c L)
      match c, hc with
      | [a, b], _ =>
        simp only [List.flatten_cons, List.cons_append, List.nil_append]
        show chunkPairs (a :: b :: L.flatten) = [a, b] :: L
        rw [chunkPairs]
        rw [ih fun d hd => h d (List.mem_cons_of_mem _ hd)]

lemma length_reversebytes (s : String) : (reversebytes s).length = s.length := by
  show ((chunkPairs s.data).reverse.flatten).length = s.data.length
  rw [List.length_flatten, List.map_reverse, List.sum_reverse,
    ← List.length_flatten, chunkPairs_flatten]

/-- C7: applying `reversebytes` twice to an even-length hex string returns the
string unchanged. -/
theorem reversebytes_involutive (s : String) (h : s.length % 2 = 0) :
    reversebytes (reversebytes s) = s := by
  have hdata : (reversebytes (reversebytes s)).data = s.data := by
    show (chunkPairs ((chunkPairs s.data).reverse.flatten)).reverse.flatten = s.data
    rw [chunkPairs_flatten_of_pairs ((chunkPairs s.data).reverse)
      (fun c hc => length_of_mem_chunkPairs h (List.mem_reverse.mp hc))]
    rw [List.reverse_reverse, chunkPairs_flatten]
  exact congrArg String.mk hdata

/-- Witness for C7 at the concrete even-length string `"1a2b3c4d"`. -/
theorem reversebytes_involutive_witness :
    "1a2b3c4d".length % 2 = 0 ∧ reversebytes (reversebytes "1a2b3c4d") = "1a2b3c4d" :=
  ⟨by decide, reversebytes_involutive "1a2b3c4d" (by decide)⟩

/-- C9 counterexample: on the odd-length input `"abc"` the code raises
nothing and returns the string `"cab"` (the lone final character becomes its
own chunk and moves to the front). -/
theorem reversebytes_odd_counterexample :
    "abc".length % 2 = 1 ∧ reversebytes "abc" = "cab" := by decide

lemma chunkPairs_odd {l : List Char} (hl : l.length % 2 = 1) :
    ∃ c L, chunkPairs l = L ++ [[c]] ∧ l.getLast? = some c := by
  induction l using chunkPairs.induct with
  | case1 => simp at hl
  | case2 d => exact ⟨d, [], rfl, rfl⟩
  | case3 a b rest ih =>
      obtain ⟨c, L, hL, hlast⟩ := ih (by simp only [List.length_cons] at hl; omega)
      refine ⟨c, [a, b] :: L, ?_, ?_⟩
      · rw [chunkPairs, hL]; rfl
      · have hrest : rest ≠ [] := by
          intro hr; rw [hr] at hlast; simp at hlast
        rw [List.getLast?_cons_cons]
        cases rest with
        | nil => exact absurd rfl hrest
        | cons x xs => rw [List.getLast?_cons_cons]; exact hlast

/-- C9 amended: on an odd-length input `reversebytes` returns normally: a
string of the same length whose first character is the input's last. -/
theorem reversebytes_odd_returns (s : String) (h : s.length % 2 = 1) :
    (reversebytes s).length = s.length ∧
      (reversebytes s).data.head? = s.data.getLast? := by
  refine ⟨length_reversebytes s, ?_⟩
  obtain ⟨c, L, hL, hlast⟩ := chunkPairs_odd (l := s.data) h
  show ((chunkPairs s.data).reverse.flatten).head? = s.data.getLast?
  rw [hL, hlast, List.reverse_append]
  rfl

/-- Witness for C9 (amended) at the concrete odd-length string `"abc"`. -/
theorem reversebytes_odd_returns_witness :
    "abc".length % 2 = 1 ∧ (reversebytes "abc").length = "abc".length ∧
      (reversebytes "abc").data.head? = "abc".data.getLast? :=
  ⟨by decide, (reversebytes_odd_returns "abc" (by decide)).1,
    (reversebytes_odd_returns "abc" (by decide)).2⟩

/-! ## Field encoding: lemmas -/

lemma hexDigitVal_hexDigitChar {d : Nat} (h : d < 16) :
    hexDigitVal (hexDigitChar d) = d := by
  interval_cases d <;> rfl

lemma toHexAux_foldl (fuel : Nat) : ∀ v, v ≤ fuel → ∀ acc : Nat,
    (toHexAux fuel v).foldl (fun acc c => 16 * acc + hexDigitVal c) acc
      = acc * 16 ^ (toHexAux fuel v).length + v := by
  induction fuel with
  | zero =>
      intro v hv acc
      interval_cases v
      simp [toHexAux]
  | succ fuel ih =>
      intro v hv acc
      by_cases h0 : v = 0
      · subst h0; simp [toHexAux]
      · rw [toHexAux, if_neg h0, List.foldl_append, List.foldl_cons, List.foldl_nil]
        have hdiv : v / 16 ≤ fuel := by
          have := Nat.div_lt_self (Nat.pos_of_ne_zero h0) (by norm_num : (1:Nat) < 16)
          omega
        rw [ih (v / 16) hdiv acc, hexDigitVal_hexDigitChar (Nat.mod_lt v (by norm_num)),
          List.length_append, List.length_singleton, pow_succ]
        have hmod := Nat.div_add_mod v 16
        set m := acc * 16 ^ (toHexAux fuel (v / 16)).length with hm
        rw [mul_comm (16 ^ (toHexAux fuel (v / 16)).length) 16, ← mul_assoc, mul_comm acc 16,
          mul_assoc, ← hm]
        omega

lemma toHexAux_length_le (fuel : Nat) : ∀ v k, v ≤ fuel → v < 16 ^ k →
    (toHexAux fuel v).length ≤ k := by
  induction fuel with
  | zero =>
      intro v k hv _
      interval_cases v
      simp [toHexAux]
  | succ fuel ih =>
      intro v k hv hk
      by_cases h0 : v = 0
      · subst h0; simp [toHexAux]
      · rw [toHexAux, if_neg h0, List.length_append, List.length_singleton]
        have hkpos : 1 ≤ k := by
          by_contra hc
          interval_cases k
          omega
        have hdiv : v / 16 ≤ fuel := by
          have := Nat.div_lt_self (Nat.pos_of_ne_zero h0) (by norm_num : (1:Nat) < 16)
          omega
        have hlt : v / 16 < 16 ^ (k - 1) := by
          rw [Nat.div_lt_iff_lt_mul (by norm_num : 0 < 16)]
          calc v < 16 ^ k := hk
            _ = 16 ^ (k - 1) * 16 := by
                rw [← pow_succ]
                congr 1
                omega
        have := ih (v / 16) (k - 1) hdiv hlt
        omega

lemma toHexAux_length_gt (fuel : Nat) : ∀ v k, v ≤ fuel → 16 ^ k ≤ v →
    k < (toHexAux fuel v).length := by
  induction fuel with
  | zero =>
      intro v k hv hk
      have : 1 ≤ 16 ^ k := Nat.one_le_pow _ _ (by norm_num)
      omega
  | succ fuel ih =>
      intro v k hv hk
      have h0 : v ≠ 0 := by
        have : 1 ≤ 16 ^ k := Nat.one_le_pow _ _ (by norm_num)
        omega
      rw [toHexAux, if_neg h0, List.length_append, List.length_singleton]
      have hdiv : v / 16 ≤ fuel := by
        have := Nat.div_lt_self (Nat.pos_of_ne_zero h0) (by norm_num : (1:Nat) < 16)
        omega
      cases k with
      | zero => omega
      | succ j =>
          have hj : 16 ^ j ≤ v / 16 := by
            rw [Nat.le_div_iff_mul_le (by norm_num : 0 < 16)]
            calc 16 ^ j * 16 = 16 ^ (j + 1) := (pow_succ 16 j).symm
              _ ≤ v := hk
          have := ih (v / 16) j hdiv hj
          omega

lemma natToHexChars_foldl (v acc : Nat) :
    (natToHexChars v).foldl (fun acc c => 16 * acc + hexDigitVal c) acc
      = acc * 16 ^ (natToHexChars v).length + v := by
  by_cases h0 : v = 0
  · subst h0; simp [natToHexChars, hexDigitVal, Nat.mul_comm]
  · rw [natToHexChars, if_neg h0]
    exact toHexAux_foldl v v le_rfl acc

lemma foldl_replicate_zero (n : Nat) :
    (List.replicate n '0').foldl (fun acc c => 16 * acc + hexDigitVal c) 0 = 0 := by
  induction n with
  | zero => rfl
  | succ n ih => simpa [List.replicate_succ, hexDigitVal] using ih

lemma hexToNat_field (v w : Nat) : hexToNat (field v w) = v := by
  show (List.replicate (2 * w - (natToHexChars v).length) '0'
      ++ natToHexChars v).foldl (fun acc c => 16 * acc + hexDigitVal c) 0 = v
  rw [List.foldl_append, foldl_replicate_zero, natToHexChars_foldl]
  simp

lemma length_field (v w : Nat) :
    (field v w).length = max (2 * w) (natToHexChars v).length := by
  show (List.replicate (2 * w - (natToHexChars v).length) '0'
      ++ natToHexChars v).length = _
  rw [List.length_append, List.length_replicate]
  omega

/-- C6 (amended): for a positive byte width `w`, every value below `2^(8w)`
encodes to exactly `2w` lowercase hex characters that parse back to the value
most-significant digit first; a value that cannot fit in `w` bytes is not
rejected — `field` still returns its full hex representation, which is longer
than `2w` characters and also parses back to the value. -/
theorem field_encodes_spec (v w : Nat) (hw : 1 ≤ w) :
    (v < 2 ^ (8 * w) → (field v w).length = 2 * w ∧ hexToNat (field v w) = v) ∧
      (2 ^ (8 * w) ≤ v → 2 * w < (field v w).length ∧ hexToNat (field v w) = v) := by
  have hpow : (2 : Nat) ^ (8 * w) = 16 ^ (2 * w) := by
    rw [show 8 * w = 4 * (2 * w) by ring, pow_mul]
    norm_num
  constructor
  · intro hv
    refine ⟨?_, hexToNat_field v w⟩
    rw [length_field]
    have hle : (natToHexChars v).length ≤ 2 * w := by
      by_cases h0 : v = 0
      · subst h0; simp [natToHexChars]; omega
      · rw [natToHexChars, if_neg h0]
        exact toHexAux_length_le v v (2 * w) le_rfl (by rw [← hpow]; exact hv)
    omega
  · intro hv
    refine ⟨?_, hexToNat_field v w⟩
    rw [length_field]
    have h0 : v ≠ 0 := by
      have : 1 ≤ (2:Nat) ^ (8 * w) := Nat.one_le_pow _ _ (by norm_num)
      omega
    have hgt : 2 * w < (natToHexChars v).length := by
      rw [natToHexChars, if_neg h0]
      exact toHexAux_length_gt v v (2 * w) le_rfl (by rw [← hpow]; exact hv)
    omega

/-- Witness for C6 (amended) at `v = 1`, `w = 4`: an 8-character encoding. -/
theorem field_encodes_spec_witness :
    (field 1 4).length = 2 * 4 ∧ hexToNat (field 1 4) = 1 :=
  (field_encodes_spec 1 4 (by decide)).1 (by decide)

/-- C6 counterexample: the claim's failure branch does not exist in the code.
`field(2^32, 4)` produces the 9-character output `"100000000"` instead of
failing, and at width 0 the value 0 (the only value the claim allows there)
produces `"0"`, one character instead of the claimed zero characters. -/
theorem field_claim_counterexample :
    field 4294967296 4 = "100000000" ∧ (field 4294967296 4).length ≠ 2 * 4 ∧
      field 0 0 = "0" ∧ (field 0 0).length ≠ 2 * 0 := by decide

/-! ## Coinbase and header invariants -/

/-- C5: the coinbase builder yields exactly one input (the zero txid sentinel
with the maximum output index `MAX_VOUT`) and exactly one output of value 50,
and for every candidate pool — the empty one included — this transaction sits
at position 0 of the assembled block. -/
theorem coinbase_invariant :
    create_coinbase_transaction.vin.map (fun i => (i.txid, i.vout))
        = [(TxidV.num 0, MAX_VOUT)] ∧
      create_coinbase_transaction.vout.map TxOut.value = [50] ∧
      ∀ pool : List Transaction,
        (transactions_for_block pool).head? = some create_coinbase_transaction :=
  ⟨rfl, rfl, fun _ => rfl⟩

/-- C10: characters 8 through 71 of the serialized header are always the
byte-order reversal of the hard-coded `prevblock` constant, whatever the
transaction list and timestamp; `mining` accepts no caller-supplied
previous-block hash. -/
theorem prev_block_hash_hardcoded (timeStamp : Nat) (txids : List String) :
    ((miningHeader timeStamp txids).data.drop 8).take 64
      = (reversebytes prevblock).data := by
  show ((reversebytes (field 2 4) ++ reversebytes prevblock
      ++ reversebytes (computeRoot txids)
      ++ reversebytes (field timeStamp 4)).data.drop 8).take 64 = _
  simp only [String.data_append, List.append_assoc]
  have h8 : (reversebytes (field 2 4)).data.length = 8 := by decide
  rw [← h8, List.drop_left]
  have h64 : (reversebytes prevblock).data.length = 64 := by decide
  rw [← h64, List.take_left]

/-! ## Mining at the zero target -/

lemma hexToNat_zeroTarget : hexToNat zeroTarget = 0 := by decide

lemma miningLoop_zeroTarget (header : String) :
    ∀ fuel nonce, miningLoop header zeroTarget fuel nonce = none := by
  intro fuel
  induction fuel with
  | zero => intro nonce; rfl
  | succ fuel ih =>
      intro nonce
      rw [miningLoop, hexToNat_zeroTarget]
      rw [if_neg (Nat.not_lt_zero _)]
      exact ih (nonce + 1)

/-- C4 (code evaluated at the claim's failing input): with the all-zero
target no iteration of the search loop can succeed — the comparison
`int(result, 16) < 0` is unsatisfiable — and the loop has no other exit, so
for every iteration bound `mining` is still running (`none`); the code holds
no `Exhausted` state and no `NonceSpaceExhausted` failure. -/
theorem mining_zero_target_never_succeeds (txs : List Transaction)
    (timeStamp fuel : Nat) : mining zeroTarget txs timeStamp fuel = none :=
  miningLoop_zeroTarget _ fuel 0

/-! ## Merkle-root order sensitivity -/

lemma data_rootInput_pair (a b : String) :
    (rootInput [a, b]).data = a.data ++ b.data := by
  show (("" ++ a) ++ b).data = a.data ++ b.data
  simp [String.data_append]

/-- C8 counterexample: the claim quantifies over all distinct identifiers,
but for `a = "x"` and `b = "xx"` the two concatenation orders coincide
(`"xxx"`), so the two roots are equal even though `a ≠ b`. -/
theorem computeRoot_order_counterexample :
    ("x" : String) ≠ "xx" ∧ computeRoot ["x", "xx"] = computeRoot ["xx", "x"] := by
  constructor
  · decide
  · show sha256Hex (rootInput ["x", "xx"]) = sha256Hex (rootInput ["xx", "x"])
    have h : rootInput ["x", "xx"] = rootInput ["xx", "x"] := by decide
    rw [h]

set_option maxRecDepth 100000 in
/-- C8 (amended): for distinct identifiers of equal length — as all the
program's identifiers are, being 64-character SHA-256 hex digests — the two
concatenation orders produce different preimages, so the roots differ unless
SHA-256 collides on that very pair; on a concrete pair of distinct
64-character identifiers the roots indeed differ. -/
theorem computeRoot_order_sensitive :
    (∀ a b : String, a.length = b.length → a ≠ b →
        rootInput [a, b] ≠ rootInput [b, a]) ∧
      computeRoot
          ["1111111111111111111111111111111111111111111111111111111111111111",
           "2222222222222222222222222222222222222222222222222222222222222222"]
        ≠ computeRoot
          ["2222222222222222222222222222222222222222222222222222222222222222",
           "1111111111111111111111111111111111111111111111111111111111111111"] := by
  constructor
  · intro a b hlen hne heq
    have hdata : a.data ++ b.data = b.data ++ a.data := by
      have := congrArg String.data heq
      rwa [data_rootInput_pair, data_rootInput_pair] at this
    have hlen' : a.data.length = b.data.length := hlen
    obtain ⟨hab, -⟩ := List.append_inj hdata hlen'
    exact hne (congrArg String.mk hab)
  · decide

/-- Witness for C8 (amended) on the concrete distinct equal-length pair
`"ab"`, `"cd"`. -/
theorem computeRoot_order_sensitive_witness :
    rootInput ["ab", "cd"] ≠ rootInput ["cd", "ab"] :=
  computeRoot_order_sensitive.1 "ab" "cd" rfl (by decide)

/-! ## End-to-end block assembly -/

lemma validate_transaction_ne_some_true (t : Transaction) :
    validate_transaction t ≠ some true := by
  intro h
  unfold validate_transaction at h
  split at h
  · simp at h
  · split at h
    · simp at h
    · split at h
      · simp at h
      · split at h
        · simp at h
        · split at h
          · simp at h
          · split at h
            · simp at h
            · simp at h

lemma valid_transactions_nil (pool : List Transaction) :
    valid_transactions pool = [] := by
  rw [valid_transactions, List.filter_eq_nil_iff]
  intro tx _
  cases hv : validate_transaction tx with
  | none => simp [truthy, hv]
  | some b =>
      cases b with
      | false => simp [truthy, hv]
      | true => exact absurd hv (validate_transaction_ne_some_true tx)

set_option maxRecDepth 100000 in
/-- C2 (code evaluated at the claim's failing input): in the concrete
three-transaction pool, `exTx1` and `exTx2` pass every rule (the validator
falls through, returning `None`) and `exTx3` is rejected at the output-sum
bound; yet `main`'s filter keeps nothing, because the validator never returns
a truthy value, so the assembled block is the coinbase alone — one
transaction, not three — and the artifact lists no identifiers. -/
theorem block_assembly_drops_valid_transactions :
    validate_transaction exTx1 = none ∧ validate_transaction exTx2 = none ∧
      validate_transaction exTx3 = some false ∧
      (∀ pool : List Transaction, valid_transactions pool = []) ∧
      transactions_for_block examplePool = [create_coinbase_transaction] ∧
      artifact_txids examplePool = [] := by
  refine ⟨by decide, by decide, by decide, valid_transactions_nil, ?_, ?_⟩
  · rw [transactions_for_block, valid_transactions_nil]
  · rw [artifact_txids, valid_transactions_nil]; rfl

/-! ## Mining return value -/

set_option maxRecDepth 400000 in
/-- C3 (code evaluated at the claim's failing input): under the all-ones
target the very first iteration succeeds (nonce 0), the returned digest is
the byte-order-reversed `hash256` of the full attempt — the header with the
reversed 4-byte nonce appended — but the first returned component is the
144-character fixed header alone, not the 152-character attempt the claim
promises: the nonce encoding is missing from what `mining` returns. -/
theorem mining_returns_header_without_nonce :
    (mining maxTarget [] 1700000000 1).map Prod.fst
        = some (miningHeader 1700000000 []) ∧
      (mining maxTarget [] 1700000000 1).map Prod.snd
        = some (reversebytes (hash256 (miningAttempt (miningHeader 1700000000 []) 0))) ∧
      (miningHeader 1700000000 []).length = 144 ∧
      (miningAttempt (miningHeader 1700000000 []) 0).length = 152 ∧
      miningHeader 1700000000 [] ≠ miningAttempt (miningHeader 1700000000 []) 0 :=
  ⟨by decide, by decide, by decide, by decide, by decide⟩

/-! ## Validator characterization -/

lemma checkVoutLoop_some (outs : List TxOut) (total : Int)
    (h : ∀ o ∈ outs, 0 ≤ o.value ∧ o.value ≤ 21000000) :
    checkVoutLoop outs total = some (total + outputSum outs) := by
  induction outs generalizing total with
  | nil => simp [checkVoutLoop, outputSum]
  | cons o rest ih =>
      have ho := h o (List.mem_cons_self o rest)
      rw [checkVoutLoop, if_neg (by
        simp only [MIN_OUTPUT_VALUE, MAX_OUTPUT_VALUE]
        omega)]
      rw [ih (total + o.value) fun p hp => h p (List.mem_cons_of_mem _ hp)]
      simp only [outputSum, List.map_cons, List.sum_cons]
      ring_nf

lemma checkVoutLoop_none (outs : List TxOut) (total : Int)
    (h : ¬ ∀ o ∈ outs, 0 ≤ o.value ∧ o.value ≤ 21000000) :
    checkVoutLoop outs total = none := by
  induction outs generalizing total with
  | nil => exact absurd (by simp) h
  | cons o rest ih =>
      rw [checkVoutLoop]
      by_cases ho : o.value < MIN_OUTPUT_VALUE ∨ o.value > MAX_OUTPUT_VALUE
      · rw [if_pos ho]
      · rw [if_neg ho]
        refine ih (total + o.value) fun hall => h ?_
        intro p hp
        rcases List.mem_cons.mp hp with rfl | hmem
        · simp only [MIN_OUTPUT_VALUE, MAX_OUTPUT_VALUE] at ho
          omega
        · exact hall p hmem

lemma hasCoinbaseInput_iff (vin : List TxIn) :
    hasCoinbaseInput vin = true ↔ ∃ i ∈ vin, i.txid = TxidV.str "0" ∧ i.vout = -1 := by
  simp [hasCoinbaseInput, List.any_eq_true]

/-- C1: for a transaction with at least one input and one output, the
validator's absence of a rejection (it returns Python `None`, never `True`)
is equivalent to the conjunction of the remaining rules: every output value
in `[0, 21000000]`, the output total in the same range, no input carrying the
coinbase sentinel (string txid `"0"` with index `-1`), locktime in
`[0, sys.maxsize]`, and a serialized size of at least 100 bytes; whenever any
single rule fails the validator returns the rejection `False`. -/
theorem validate_transaction_accepts_iff (t : Transaction)
    (hvin : t.vin ≠ []) (hvout : t.vout ≠ []) :
    validate_transaction t ≠ some false ↔
      ((∀ o ∈ t.vout, 0 ≤ o.value ∧ o.value ≤ 21000000) ∧
       0 ≤ outputSum t.vout ∧ outputSum t.vout ≤ 21000000 ∧
       (∀ i ∈ t.vin, ¬ (i.txid = TxidV.str "0" ∧ i.vout = -1)) ∧
       0 ≤ t.locktime ∧ t.locktime ≤ sysMaxsize ∧
       100 ≤ (txJson t).length) := by
  rw [validate_transaction, if_neg (by simp [hvin, hvout])]
  by_cases hall : ∀ o ∈ t.vout, (0:Int) ≤ o.value ∧ o.value ≤ 21000000
  · rw [checkVoutLoop_some t.vout 0 hall, zero_add]
    simp only [MAX_OUTPUT_VALUE, MIN_OUTPUT_VALUE, sysMaxsize]
    split_ifs with hsum hcb hlock hsize
    · simp only [ne_eq, not_true_eq_false, false_iff, not_and]
      intro _ hlo
      omega
    · simp only [ne_eq, not_true_eq_false, false_iff]
      rintro ⟨-, -, -, hnone, -⟩
      obtain ⟨i, hi, hprop⟩ := (hasCoinbaseInput_iff t.vin).mp hcb
      exact hnone i hi hprop
    · simp only [ne_eq, not_true_eq_false, false_iff]
      rintro ⟨-, -, -, -, hlo, hhi, -⟩
      omega
    · simp only [ne_eq, not_true_eq_false, false_iff]
      rintro ⟨-, -, -, -, -, -, hlen⟩
      omega
    · simp only [ne_eq, reduceCtorEq, not_false_eq_true, true_iff]
      refine ⟨hall, by omega, by omega, ?_, by omega, by omega, by omega⟩
      intro i hi hprop
      exact hcb ((hasCoinbaseInput_iff t.vin).mpr ⟨i, hi, hprop⟩)
  · rw [checkVoutLoop_none t.vout 0 hall]
    simp only [ne_eq, not_true_eq_false, false_iff]
    rintro ⟨h1, -⟩
    exact hall h1

set_option maxRecDepth 100000 in
/-- Witness for C1 at the concrete transaction `exTx1`, which satisfies every
rule and is accepted (no rejection is returned). -/
theorem validate_transaction_accepts_iff_witness :
    exTx1.vin ≠ [] ∧ exTx1.vout ≠ [] ∧ validate_transaction exTx1 ≠ some false :=
  ⟨by decide, by decide,
    (validate_transaction_accepts_iff exTx1 (by decide) (by decide)).mpr (by decide)⟩
